import Mathlib

/-!
Verification development for the icelake `Table` module
(`src/icelake/src/table.rs`).

The Rust code manages versioned Iceberg-style table metadata on an
abstract byte store (an opendal `Operator`).  We shallowly embed it:

* the storage operator is a `Backend σ`: a record of the storage
  primitives the code calls (`is_exist`, `read`, `write`, `delete`,
  `rename`, `copy`, `list`, `info`) together with the codec functions
  (`parse_table_metadata`, `serialize_table_meta`,
  `parse_manifest_list`, `parse_manifest_file`), which are external
  collaborators of this module (they live outside `table.rs`);
  reads are modelled as pure functions of the storage state, writes
  return the updated state, and every primitive can fail;
* byte contents are modelled as `String` (the `String::from_utf8`
  step of `read_version_hint` therefore always succeeds in the model);
* `async` is erased: each method is a function threading the storage
  state explicitly;
* Rust panics (`assert!`, `expect`) are modelled by returning `none`
  from an `Option`;
* `i32`/`i64` are modelled as `Int`, with the `i32` range check made
  explicit where the code parses decimal strings;
* `Uuid::new_v4` random tokens are passed as explicit arguments.
-/

/-- Error kinds of `crate::ErrorKind` that `table.rs` constructs.
Errors bubbled from collaborators carry whatever kind/message the
collaborator chose. -/
inductive ErrorKind where
  | IcebergDataInvalid
  | Unexpected
  deriving DecidableEq, Repr

/-- Model of `crate::Error`: a kind plus a message. -/
structure Err where
  kind : ErrorKind
  msg : String
  deriving DecidableEq, Repr

/-- A data file; opaque beyond its `file_path` (from the data model in
the spec and the uses in `table.rs`). -/
structure DataFile where
  file_path : String
  deriving DecidableEq, Repr

/-- One entry of a manifest file, wrapping a data file. -/
structure ManifestEntry where
  data_file : DataFile
  deriving DecidableEq, Repr

/-- A parsed manifest file: an ordered sequence of entries. -/
structure ManifestFile where
  entries : List ManifestEntry
  deriving DecidableEq, Repr

/-- One entry of a manifest list, holding an absolute manifest path. -/
structure ManifestListEntry where
  manifest_path : String
  deriving DecidableEq, Repr

/-- A parsed manifest list: an ordered sequence of entries. -/
structure ManifestList where
  entries : List ManifestListEntry
  deriving DecidableEq, Repr

/-- A snapshot: its id and the absolute path of its manifest list. -/
structure Snapshot where
  snapshot_id : Int
  manifest_list : String
  deriving DecidableEq, Repr

/-- Table metadata, restricted to the fields `table.rs` reads:
`location`, `last_updated_ms`, `current_snapshot_id`, `snapshots`.
The remaining fields of the on-disk format are opaque to the module
under verification. -/
structure TableMetadata where
  location : String
  last_updated_ms : Int
  current_snapshot_id : Option Int
  snapshots : Option (List Snapshot)
  deriving DecidableEq, Repr

/-- The in-memory state of `Table` (the fields other than the operator
handle): the version-to-metadata map, `current_version`,
`current_location`, `current_table_version` and the task-id counter. -/
structure TableState where
  table_metadata : List (Int × TableMetadata)
  current_version : Int
  current_location : Option String
  current_table_version : Int
  task_id : Nat
  deriving DecidableEq, Repr

instance {ε α : Type} [DecidableEq ε] [DecidableEq α] : DecidableEq (Except ε α) := fun a b =>
  match a, b with
  | .ok x, .ok y =>
    if h : x = y then .isTrue (by rw [h]) else .isFalse (by intro hc; cases hc; exact h rfl)
  | .ok _, .error _ => .isFalse (by intro hc; cases hc)
  | .error _, .ok _ => .isFalse (by intro hc; cases hc)
  | .error x, .error y =>
    if h : x = y then .isTrue (by rw [h]) else .isFalse (by intro hc; cases hc; exact h rfl)

/-- Last element of a list (model of Rust `Iterator::last`). -/
def listLast {α : Type} : List α → Option α
  | [] => none
  | [x] => some x
  | _ :: y :: ys => listLast (y :: ys)

/-- `isLeadOf pat l` : `pat` is a prefix of `l` (used to model Rust
`str::starts_with` / `str::ends_with` byte-wise). -/
def isLeadOf : List Char → List Char → Bool
  | [], _ => true
  | _ :: _, [] => false
  | p :: ps, c :: cs => p == c && isLeadOf ps cs

/-- `dropLead pat l` : strip `pat` from the front of `l`
(model of Rust `str::strip_prefix`). -/
def dropLead : List Char → List Char → Option (List Char)
  | [], l => some l
  | _ :: _, [] => none
  | p :: ps, c :: cs => if p = c then dropLead ps cs else none

/-- Model of Rust `str::ends_with`. -/
def strEndsWith (s pat : String) : Bool :=
  isLeadOf pat.data.reverse s.data.reverse

/-- Model of Rust `str::starts_with`. -/
def strStartsWith (s pat : String) : Bool :=
  isLeadOf pat.data s.data

/-- Lexicographic order on char lists by code point; UTF-8 encoding
preserves code-point order, so this is exactly the byte-lexicographic
`Ord` that Rust `Vec<String>::sort` uses. -/
def lexLeList : List Char → List Char → Bool
  | [], _ => true
  | _ :: _, [] => false
  | x :: xs, y :: ys =>
    if x.toNat < y.toNat then true
    else if y.toNat < x.toNat then false
    else lexLeList xs ys

/-- Lexicographic order on strings. -/
def lexLeB (a b : String) : Bool := lexLeList a.data b.data

/-- The lexicographic order as a decidable relation, for sorting. -/
def strLeP (a b : String) : Prop := lexLeB a b = true

instance : DecidableRel strLeP := fun a b =>
  inferInstanceAs (Decidable (lexLeB a b = true))

/-- Model of `Vec<String>::sort()` in `list_table_metadata_paths`:
a sort of the paths by the lexicographic order (Rust's sort is stable,
but equal strings are identical, so any sorting algorithm produces the
same list). -/
def sortStrings (l : List String) : List String :=
  List.insertionSort strLeP l

instance : IsTotal String strLeP := by
  constructor
  intro a b
  have h : ∀ xs ys : List Char, lexLeList xs ys = true ∨ lexLeList ys xs = true := by
    intro xs
    induction xs with
    | nil => intro ys; left; rfl
    | cons x xs ih =>
      intro ys
      cases ys with
      | nil => right; rfl
      | cons y ys =>
        by_cases h1 : x.toNat < y.toNat
        · left; simp [lexLeList, h1]
        · by_cases h2 : y.toNat < x.toNat
          · right; simp [lexLeList, h2]
          · rcases ih ys with h3 | h3
            · left; simp [lexLeList, h1, h2, h3]
            · right; simp [lexLeList, h1, h2, h3]
  exact h a.data b.data

instance : IsTrans String strLeP := by
  constructor
  intro a b c hab hbc
  have h : ∀ xs ys zs : List Char, lexLeList xs ys = true → lexLeList ys zs = true →
      lexLeList xs zs = true := by
    intro xs
    induction xs with
    | nil => intro ys zs _ _; rfl
    | cons x xs ih =>
      intro ys zs h1 h2
      cases ys with
      | nil => simp [lexLeList] at h1
      | cons y ys =>
        cases zs with
        | nil => simp [lexLeList] at h2
        | cons z zs =>
          simp only [lexLeList] at h1 h2 ⊢
          by_cases hxy : x.toNat < y.toNat
          · by_cases hyz : y.toNat < z.toNat
            · have hxz : x.toNat < z.toNat := Nat.lt_trans hxy hyz
              simp [hxz]
            · by_cases hzy : z.toNat < y.toNat
              · simp [hyz, hzy] at h2
              · have hxz : x.toNat < z.toNat := by omega
                simp [hxz]
          · by_cases hyx : y.toNat < x.toNat
            · simp [hxy, hyx] at h1
            · by_cases hyz : y.toNat < z.toNat
              · have hxz : x.toNat < z.toNat := by omega
                simp [hxz]
              · by_cases hzy : z.toNat < y.toNat
                · simp [hyz, hzy] at h2
                · have hxz : ¬ x.toNat < z.toNat := by omega
                  have hzx : ¬ z.toNat < x.toNat := by omega
                  have h1' : lexLeList xs ys = true := by simpa [hxy, hyx] using h1
                  have h2' : lexLeList ys zs = true := by simpa [hyz, hzy] using h2
                  simp [hxz, hzx, ih ys zs h1' h2']
  exact h a.data b.data c.data hab hbc

/-- The decimal digit character for `d < 10`. -/
def digitChar (d : Nat) : Char := Char.ofNat (48 + d)

/-- Accumulate decimal digits into a number, as Rust's integer `from_str`
does. -/
def foldDigits (ds : List Char) : Nat :=
  ds.foldl (fun a c => a * 10 + (c.toNat - 48)) 0

/-- Decimal digits of `n`, most significant first, computed with fuel so
that the definition is structural (and kernel-reducible). -/
def natDigitsAux : Nat → Nat → List Char
  | _, 0 => []
  | n, fuel + 1 =>
    if n < 10 then [digitChar n]
    else natDigitsAux (n / 10) fuel ++ [digitChar (n % 10)]

/-- Decimal digits of `n`, most significant first. -/
def natDigits (n : Nat) : List Char := natDigitsAux n (n + 1)

/-- Decimal rendering of an integer: the model of Rust's `Display` for
integers, used by `format!` in `table.rs`. -/
def intRepr (v : Int) : String :=
  if v < 0 then ⟨'-' :: natDigits v.natAbs⟩ else ⟨natDigits v.toNat⟩

/-- Model of Rust `str::parse::<i32>`: an optional leading `+` or `-`
sign, then one or more decimal digits, the whole string, with the value
required to fit in a signed 32-bit integer. -/
def parseI32 (s : String) : Option Int :=
  match s.data with
  | [] => none
  | c :: rest =>
    let sign : Int := if c == '-' then -1 else 1
    let ds : List Char := if c == '-' || c == '+' then rest else c :: rest
    if ds.isEmpty then none
    else if ds.all (fun d => d.isDigit) then
      let v : Int := sign * (foldDigits ds : Nat)
      if -(2 ^ 31) ≤ v ∧ v ≤ 2 ^ 31 - 1 then some v else none
    else none

/-!
Model of the regex `v([0-9]+).metadata.json` (note: the three `.` are
wildcards) with Rust-regex leftmost-first semantics: scan positions left
to right; at a position, `v` then a greedy backtracking `[0-9]+`
capture, then one wildcard char, the literal `metadata`, one wildcard
char, and the literal `json`.  The pattern is unanchored at both ends.
-/

/-- Does `cs` match `.metadata.json` (wildcard dots) as a prefix? -/
def vSuffixMatches (cs : List Char) : Bool :=
  match cs with
  | [] => false
  | _ :: rest =>
    isLeadOf "metadata".data rest &&
    (match rest.drop 8 with
     | [] => false
     | _ :: rest2 => isLeadOf "json".data rest2)

/-- Backtracking over the digit-capture length, longest first:
`ds` is the maximal digit run, `rest` what follows it; try using the
first `k` digits as capture and the remainder as wildcard input. -/
def tryDigitsAux (ds rest : List Char) : Nat → Option (List Char)
  | 0 => none
  | k + 1 =>
    if vSuffixMatches (ds.drop (k + 1) ++ rest) then some (ds.take (k + 1))
    else tryDigitsAux ds rest k

/-- Try to match the pattern at the head of `cs`, returning the digit
capture. -/
def matchVAt (cs : List Char) : Option (List Char) :=
  match cs with
  | [] => none
  | c :: rest =>
    if c == 'v' then
      let ds := rest.takeWhile (fun d => d.isDigit)
      tryDigitsAux ds (rest.dropWhile (fun d => d.isDigit)) ds.length
    else none

/-- Scan left to right for the first matching position. -/
def scanV : List Char → Option (List Char)
  | [] => none
  | c :: cs =>
    match matchVAt (c :: cs) with
    | some ds => some ds
    | none => scanV cs

/-- `Regex::is_match` plus first-capture extraction for the pattern
`v([0-9]+).metadata.json`: `some digits` iff the regex matches, with
`digits` the group of the leftmost match. -/
def matchVPattern (s : String) : Option String :=
  (scanV s.data).map (fun ds => ⟨ds⟩)

/-- The storage operator together with the codec collaborators, as used
by `table.rs`.  `σ` is the backend's state.  Reads are pure in `σ`;
mutating primitives return the next state even on failure. -/
structure Backend (σ : Type) where
  is_exist : String → σ → Except Err Bool
  read : String → σ → Except Err String
  write : String → String → σ → Except Err Unit × σ
  delete : String → σ → Except Err Unit × σ
  rename : String → String → σ → Except Err Unit × σ
  copy : String → String → σ → Except Err Unit × σ
  list : String → σ → Except Err (List String)
  can_rename : Bool
  scheme : String
  name : String
  root : String
  parse_table_metadata : String → Except Err TableMetadata
  serialize_table_meta : TableMetadata → Except Err String
  parse_manifest_list : String → Except Err ManifestList
  parse_manifest_file : String → Except Err ManifestFile

/-- Lookup in the version-to-metadata map (model of `HashMap::get`). -/
def lookupAssoc (k : Int) : List (Int × TableMetadata) → Option TableMetadata
  | [] => none
  | (k', v) :: rest => if k = k' then some v else lookupAssoc k rest

/-- Insert into the version-to-metadata map (model of
`HashMap::insert`; the new binding shadows any previous one for the
same key under `lookupAssoc`). -/
def insertAssoc (k : Int) (v : TableMetadata) (l : List (Int × TableMetadata)) :
    List (Int × TableMetadata) :=
  (k, v) :: l

namespace Table

/-- `Table::new`: the in-memory state of a freshly constructed table. -/
def newState : TableState :=
  { table_metadata := []
    current_version := 0
    current_location := none
    current_table_version := 0
    task_id := 0 }

/-- `Table::metadata_path`. -/
def metadata_path (filename : String) : String :=
  "metadata" ++ "/" ++ filename

/-- `Table::metadata_file_path`. -/
def metadata_file_path (metadata_version : Int) : String :=
  metadata_path ("v" ++ intRepr metadata_version ++ ".metadata.json")

/-- `Table::absolution_path`. -/
def absolution_path {σ : Type} (b : Backend σ) (relation_location : String) : String :=
  b.scheme ++ "://" ++ b.name ++ "/" ++ b.root ++ "/" ++ relation_location

/-- `Table::rel_path`. -/
def rel_path (t : TableState) (path : String) : Except Err String :=
  match t.current_location with
  | none => .error ⟨.IcebergDataInvalid, "table location is empty, maybe it's not loaded?"⟩
  | some location =>
    match dropLead location.data path.data with
    | none => .error ⟨.IcebergDataInvalid,
        "path " ++ path ++ " is not starts with table location " ++ location⟩
    | some rest => .ok (⟨rest⟩ : String)

/-- `Table::is_version_hint_exist`. -/
def is_version_hint_exist {σ : Type} (b : Backend σ) (s : σ) : Except Err Bool :=
  match b.is_exist "metadata/version-hint.text" s with
  | .ok v => .ok v
  | .error e => .error ⟨.IcebergDataInvalid, "check if version hint exist failed: " ++ e.msg⟩

/-- `Table::read_version_hint`.  Contents are modelled as strings, so
the `String::from_utf8` step is always successful; the display text of
the wrapped `ParseIntError` is abstracted. -/
def read_version_hint {σ : Type} (b : Backend σ) (s : σ) : Except Err Int :=
  match b.read "metadata/version-hint.text" s with
  | .error e => .error e
  | .ok content =>
    match parseI32 content with
    | some n => .ok n
    | none => .error ⟨.IcebergDataInvalid, "parse version hint failed"⟩

/-- `Table::read_table_metadata`. -/
def read_table_metadata {σ : Type} (b : Backend σ) (path : String) (s : σ) :
    Except Err TableMetadata :=
  match b.read path s with
  | .error e => .error e
  | .ok content => b.parse_table_metadata content

/-- `Table::list_table_metadata_paths`: list under `metadata/`, keep
the `.metadata.json` entries, sort by name.  The per-entry listing
failures of the Rust stream are collapsed into the single listing
failure of the model. -/
def list_table_metadata_paths {σ : Type} (b : Backend σ) (s : σ) :
    Except Err (List String) :=
  match b.list "metadata/" s with
  | .error e => .error ⟨.Unexpected, "list metadata failed: " ++ e.msg⟩
  | .ok entries =>
    .ok (sortStrings (entries.filter (fun p => strEndsWith p ".metadata.json")))

/-- The version-number extraction step of `Table::load` for the
no-version-hint branch: if the regex matches, parse the captured digits
as `i32` (an out-of-range capture is a propagated `ParseIntError`,
whose kind is not visible in `table.rs`; modelled as `Unexpected`);
if the regex does not match, log and fall back to `0`. -/
def extract_version (path : String) : Except Err Int :=
  match matchVPattern path with
  | some ds =>
    match parseI32 ds with
    | some v => .ok v
    | none => .error ⟨.Unexpected, "parse metadata version failed"⟩
  | none => .ok 0

/-- The common tail of `Table::load`: read and parse the metadata at
`path`, reject a zero `last_updated_ms`, then install the metadata
under its timestamp and record the file-sequence version. -/
def loadFrom {σ : Type} (b : Backend σ) (t : TableState) (vh : Int) (path : String)
    (s : σ) : Except Err Unit × TableState :=
  match read_table_metadata b path s with
  | .error e => (.error e, t)
  | .ok md =>
    if md.last_updated_ms = 0 then
      (.error ⟨.IcebergDataInvalid, "Timestamp when the table was last updated is invalid"⟩, t)
    else
      (.ok (), { t with
        current_version := md.last_updated_ms
        current_location := some md.location
        table_metadata := insertAssoc md.last_updated_ms md t.table_metadata
        current_table_version := vh })

/-- `Table::load`.  (`Regex::new` on the static pattern cannot fail and
is omitted; the `captures_iter().next().ok_or(...)` error is dead code
when `is_match` holds, and the regex model returns the capture
directly.) -/
def load {σ : Type} (b : Backend σ) (t : TableState) (s : σ) :
    Except Err Unit × TableState :=
  match is_version_hint_exist b s with
  | .error e => (.error e, t)
  | .ok true =>
    match read_version_hint b s with
    | .error e => (.error e, t)
    | .ok vh => loadFrom b t vh ("metadata/v" ++ intRepr vh ++ ".metadata.json") s
  | .ok false =>
    match list_table_metadata_paths b s with
    | .error e => (.error e, t)
    | .ok files =>
      match listLast files with
      | none => (.error ⟨.IcebergDataInvalid, "no table metadata found"⟩, t)
      | some path =>
        match extract_version path with
        | .error e => (.error e, t)
        | .ok vh => loadFrom b t vh path s

/-- `Table::current_table_metadata`; `none` models the `assert!` /
`expect` panics. -/
def current_table_metadata (t : TableState) : Option TableMetadata :=
  if t.current_version = 0 then none
  else lookupAssoc t.current_version t.table_metadata

/-- The fallible body of one iteration of the manifest loop of
`Table::current_data_files`: resolve the manifest path, read it, parse
it. -/
def resolveManifest {σ : Type} (b : Backend σ) (t : TableState) (s : σ)
    (e : ManifestListEntry) : Except Err ManifestFile :=
  match rel_path t e.manifest_path with
  | .error err => .error err
  | .ok mp =>
    match b.read mp s with
    | .error err => .error err
    | .ok content => b.parse_manifest_file content

/-- The manifest loop of `Table::current_data_files`, accumulating data
files in order. -/
def walkManifests {σ : Type} (b : Backend σ) (t : TableState) (s : σ) :
    List ManifestListEntry → List DataFile → Except Err (List DataFile)
  | [], acc => .ok acc
  | e :: rest, acc =>
    match resolveManifest b t s e with
    | .error err => .error err
    | .ok mf => walkManifests b t s rest (acc ++ mf.entries.map (fun v => v.data_file))

/-- `Table::current_data_files`; `none` models the `assert!`/`expect`
panics. -/
def current_data_files {σ : Type} (b : Backend σ) (t : TableState) (s : σ) :
    Option (Except Err (List DataFile)) :=
  if t.current_version = 0 then none
  else
    match lookupAssoc t.current_version t.table_metadata with
    | none => none
    | some meta =>
      some (
        match meta.current_snapshot_id with
        | none => .error ⟨.IcebergDataInvalid, "current snapshot id is empty"⟩
        | some snapId =>
          match meta.snapshots with
          | none => .error ⟨.IcebergDataInvalid, "snapshots is empty"⟩
          | some snaps =>
            match snaps.find? (fun v => v.snapshot_id == snapId) with
            | none => .error ⟨.IcebergDataInvalid,
                "snapshot with id " ++ intRepr snapId ++ " is not found"⟩
            | some snap =>
              match rel_path t snap.manifest_list with
              | .error e => .error e
              | .ok mlPath =>
                match b.read mlPath s with
                | .error e => .error e
                | .ok mlContent =>
                  match b.parse_manifest_list mlContent with
                  | .error e => .error e
                  | .ok ml => walkManifests b t s ml.entries [])

/-- `Table::rename`: native rename when the backend supports it,
otherwise copy then delete. -/
def renameFile {σ : Type} (b : Backend σ) (src dst : String) (s : σ) :
    Except Err Unit × σ :=
  if b.can_rename then b.rename src dst s
  else
    match b.copy src dst s with
    | (.error e, s') => (.error e, s')
    | (.ok _, s') => b.delete src s'

/-- `Table::write_metadata_version_hint`; `tok` is the random uuid of
the temporary file name. -/
def write_metadata_version_hint {σ : Type} (b : Backend σ) (tok : String)
    (version : Int) (s : σ) : Except Err Unit × σ :=
  let tmp_version_hint_path := metadata_path (tok ++ "-version-hint.temp")
  match b.write tmp_version_hint_path (intRepr version) s with
  | (.error e, s') => (.error e, s')
  | (.ok _, s') =>
    let final_version_hint_path := metadata_path "version-hint.text"
    match b.delete final_version_hint_path s' with
    | (.error e, s'') => (.error e, s'')
    | (.ok _, s'') => renameFile b tmp_version_hint_path final_version_hint_path s''

/-- `Table::commit`; `tok1`, `tok2` are the two random uuids of the
temporary file names. -/
def commit {σ : Type} (b : Backend σ) (tok1 tok2 : String) (t : TableState)
    (next_metadata : TableMetadata) (s : σ) : Except Err Unit × TableState × σ :=
  let next_version := t.current_table_version + 1
  let tmp_metadata_file_path := metadata_path (tok1 ++ ".metadata.json")
  let final_metadata_file_path := metadata_file_path next_version
  match b.serialize_table_meta next_metadata with
  | .error e => (.error e, t, s)
  | .ok bytes =>
    match b.write tmp_metadata_file_path bytes s with
    | (.error e, s') => (.error e, t, s')
    | (.ok _, s') =>
      match renameFile b tmp_metadata_file_path final_metadata_file_path s' with
      | (.error e, s'') => (.error e, t, s'')
      | (.ok _, s'') =>
        match write_metadata_version_hint b tok2 next_version s'' with
        | (.error e, s3) => (.error e, t, s3)
        | (.ok _, s3) =>
          match load b t s3 with
          | (.error e, t') => (.error e, t', s3)
          | (.ok _, t') => (.ok (), t', s3)

end Table

/-!
A concrete storage backend over an association-list object store, used
to settle the claims that speak about storage contents (and to build
witnesses).  Its semantics follow the opendal filesystem service:
`read` fails on a missing object, `write` overwrites, `delete` of a
missing object succeeds, `rename`/`copy` fail on a missing source.
-/

/-- A concrete object store: path-to-content bindings, later bindings
shadowing earlier ones under `lookupStore`. -/
abbrev Store : Type := List (String × String)

/-- Lookup of a path in the store. -/
def lookupStore (p : String) : Store → Option String
  | [] => none
  | (p', c) :: rest => if p = p' then some c else lookupStore p rest

/-- Remove every binding of a path. -/
def eraseStore (p : String) (s : Store) : Store :=
  s.filter (fun kv => decide (kv.1 ≠ p))

/-- Bind a path to a content, removing previous bindings. -/
def insertStore (p c : String) (s : Store) : Store :=
  (p, c) :: eraseStore p s

/-- Filesystem read: the content, or failure when absent. -/
def fsRead (p : String) (s : Store) : Except Err String :=
  match lookupStore p s with
  | some c => .ok c
  | none => .error ⟨.Unexpected, "NotFound: " ++ p⟩

/-- Filesystem existence check. -/
def fsExist (p : String) (s : Store) : Except Err Bool :=
  .ok (lookupStore p s).isSome

/-- Filesystem listing: the paths under a prefix, in store order. -/
def fsList (pre : String) (s : Store) : Except Err (List String) :=
  .ok ((s.map (fun kv => kv.1)).filter (fun p => strStartsWith p pre))

/-- Filesystem write: overwrite the binding. -/
def fsWrite (p c : String) (s : Store) : Except Err Unit × Store :=
  (.ok (), insertStore p c s)

/-- Filesystem delete: succeeds also when the object is absent. -/
def fsDelete (p : String) (s : Store) : Except Err Unit × Store :=
  (.ok (), eraseStore p s)

/-- Filesystem rename: move the content, failing on a missing source. -/
def fsRename (src dst : String) (s : Store) : Except Err Unit × Store :=
  match lookupStore src s with
  | none => (.error ⟨.Unexpected, "NotFound: " ++ src⟩, s)
  | some c => (.ok (), insertStore dst c (eraseStore src s))

/-- Filesystem copy: duplicate the content, failing on a missing
source. -/
def fsCopy (src dst : String) (s : Store) : Except Err Unit × Store :=
  match lookupStore src s with
  | none => (.error ⟨.Unexpected, "NotFound: " ++ src⟩, s)
  | some c => (.ok (), insertStore dst c s)

/-- The concrete backend over `Store`, parameterized by the rename
capability and the codec collaborators. -/
def mkFsBackend (cr : Bool)
    (pTM : String → Except Err TableMetadata)
    (sTM : TableMetadata → Except Err String)
    (pML : String → Except Err ManifestList)
    (pMF : String → Except Err ManifestFile) : Backend Store :=
  { is_exist := fsExist
    read := fsRead
    write := fsWrite
    delete := fsDelete
    rename := fsRename
    copy := fsCopy
    list := fsList
    can_rename := cr
    scheme := "fs"
    name := "localhost"
    root := "/tmp/table"
    parse_table_metadata := pTM
    serialize_table_meta := sTM
    parse_manifest_list := pML
    parse_manifest_file := pMF }

/-!
Concrete fixtures used by the witness theorems: a tiny table with one
snapshot, a manifest list of two manifests holding two and one data
files, and codec collaborators keyed on the raw contents.
-/

/-- Fixture snapshot. -/
def snapW : Snapshot :=
  { snapshot_id := 7, manifest_list := "s3://bucket/tbl/metadata/snap.avro" }

/-- Fixture metadata with a valid timestamp. -/
def mdW1 : TableMetadata :=
  { location := "s3://bucket/tbl/"
    last_updated_ms := 100
    current_snapshot_id := some 7
    snapshots := some [snapW] }

/-- Fixture metadata with the invalid zero timestamp. -/
def mdZeroW : TableMetadata :=
  { location := "s3://bucket/tbl/"
    last_updated_ms := 0
    current_snapshot_id := none
    snapshots := none }

/-- Fixture data files. -/
def dfA : DataFile := { file_path := "s3://bucket/tbl/data/a.parquet" }

/-- Fixture data files. -/
def dfB : DataFile := { file_path := "s3://bucket/tbl/data/b.parquet" }

/-- Fixture data files. -/
def dfC : DataFile := { file_path := "s3://bucket/tbl/data/c.parquet" }

/-- Fixture manifest with two data files. -/
def mfW1 : ManifestFile := { entries := [⟨dfA⟩, ⟨dfB⟩] }

/-- Fixture manifest with one data file. -/
def mfW2 : ManifestFile := { entries := [⟨dfC⟩] }

/-- Fixture manifest list referencing the two manifests. -/
def mlW : ManifestList :=
  { entries := [⟨"s3://bucket/tbl/m1"⟩, ⟨"s3://bucket/tbl/m2"⟩] }

/-- Fixture table-metadata parser, keyed on content. -/
def pTMW : String → Except Err TableMetadata := fun c =>
  if c = "MD1" then .ok mdW1
  else if c = "MD0" then .ok mdZeroW
  else .error ⟨.Unexpected, "parse table metadata failed"⟩

/-- Fixture serializer. -/
def sTMW : TableMetadata → Except Err String := fun _ => .ok "MD1"

/-- Fixture manifest-list parser, keyed on content. -/
def pMLW : String → Except Err ManifestList := fun c =>
  if c = "ML" then .ok mlW
  else .error ⟨.Unexpected, "parse manifest list failed"⟩

/-- Fixture manifest parser, keyed on content. -/
def pMFW : String → Except Err ManifestFile := fun c =>
  if c = "M1" then .ok mfW1
  else if c = "M2" then .ok mfW2
  else .error ⟨.Unexpected, "parse manifest file failed"⟩

/-- Fixture backend with native rename. -/
def bW : Backend Store := mkFsBackend true pTMW sTMW pMLW pMFW

/-- Fixture backend on the copy-then-delete fallback path. -/
def bWc : Backend Store := mkFsBackend false pTMW sTMW pMLW pMFW

/-- Fixture loaded table state pointing at the fixture snapshot. -/
def tC1 : TableState :=
  { table_metadata := [(100, mdW1)]
    current_version := 100
    current_location := some "s3://bucket/tbl/"
    current_table_version := 1
    task_id := 0 }

/-- Fixture store holding the manifest list and both manifests. -/
def sC1 : Store :=
  [("metadata/snap.avro", "ML"), ("m1", "M1"), ("m2", "M2")]

/-- Fixture manifest assignment for the data-file walk. -/
def FW : ManifestListEntry → ManifestFile := fun e =>
  if e.manifest_path = "s3://bucket/tbl/m1" then mfW1 else mfW2

/-- The result of the fixture commit (used to name its components in
the commit witness). -/
def commitResW : Except Err Unit × TableState × Store :=
  Table.commit bWc "uuid1" "uuid2" Table.newState mdW1 []

/-- Backend whose write primitive fails (for the failed-commit
witness). -/
def bFail : Backend Unit :=
  { is_exist := fun _ _ => .ok false
    read := fun _ _ => .error ⟨.Unexpected, "read failed"⟩
    write := fun _ _ s => (.error ⟨.Unexpected, "write failed"⟩, s)
    delete := fun _ s => (.error ⟨.Unexpected, "delete failed"⟩, s)
    rename := fun _ _ s => (.error ⟨.Unexpected, "rename failed"⟩, s)
    copy := fun _ _ s => (.error ⟨.Unexpected, "copy failed"⟩, s)
    list := fun _ _ => .error ⟨.Unexpected, "list failed"⟩
    can_rename := true
    scheme := "fs"
    name := "localhost"
    root := "/tmp/table"
    parse_table_metadata := fun _ => .error ⟨.Unexpected, "parse failed"⟩
    serialize_table_meta := fun _ => .ok "MD1"
    parse_manifest_list := fun _ => .error ⟨.Unexpected, "parse failed"⟩
    parse_manifest_file := fun _ => .error ⟨.Unexpected, "parse failed"⟩ }

/-- Fixture store for the no-version-hint load. -/
def sC4 : Store :=
  [("metadata/v1.metadata.json", "X"),
   ("metadata/v2.metadata.json", "MD1"),
   ("metadata/other.txt", "Y")]

/-- Fixture store with a negative version hint. -/
def sC5 : Store := [("metadata/version-hint.text", "-1")]

/-- Fixture store with a valid version hint. -/
def sC5b : Store :=
  [("metadata/version-hint.text", "7"),
   ("metadata/v7.metadata.json", "MD1")]

/-- Fixture store whose metadata has the zero timestamp. -/
def sC6 : Store :=
  [("metadata/version-hint.text", "1"),
   ("metadata/v1.metadata.json", "MD0")]

/-- Fixture store for a hint-directed load. -/
def sC8 : Store :=
  [("metadata/version-hint.text", "1"),
   ("metadata/v1.metadata.json", "MD1")]

/-- Fixture store whose only metadata file does not match the version
pattern. -/
def sC10 : Store := [("metadata/zzz.metadata.json", "MD1")]

/-- Fixture table state whose location matches the fixture backend's
reported scheme, name and root. -/
def tC7 : TableState :=
  { table_metadata := []
    current_version := 100
    current_location := some "fs://localhost//tmp/table/"
    current_table_version := 1
    task_id := 0 }

/-- The table state produced by the fixture hint-directed load. -/
def T8W : TableState :=
  { table_metadata := [(100, mdW1)]
    current_version := 100
    current_location := some "s3://bucket/tbl/"
    current_table_version := 1
    task_id := 0 }

/-! ## Helper lemmas -/

theorem dropLead_append (l m : List Char) : dropLead l (l ++ m) = some m := by
  induction l with
  | nil => rfl
  | cons c cs ih => simp [dropLead, ih]

theorem listLast_cons_ne_nil {α : Type} (x : α) (l : List α) (h : l ≠ []) :
    listLast (x :: l) = listLast l := by
  cases l with
  | nil => exact absurd rfl h
  | cons y ys => rfl

theorem listLast_append {α : Type} (a : List α) {b : List α} (hb : b ≠ []) :
    listLast (a ++ b) = listLast b := by
  induction a with
  | nil => rfl
  | cons x xs ih =>
    have hne : xs ++ b ≠ [] := by
      intro hcon
      rcases List.append_eq_nil.mp hcon with ⟨-, h2⟩
      exact hb h2
    rw [List.cons_append, listLast_cons_ne_nil x _ hne, ih]

theorem listLast_mem {α : Type} : ∀ (l : List α) (x : α), listLast l = some x → x ∈ l := by
  intro l
  induction l with
  | nil => intro x h; simp [listLast] at h
  | cons y ys ih =>
    intro x h
    cases hys : ys with
    | nil =>
      subst hys
      simp [listLast] at h
      simp [h]
    | cons z zs =>
      subst hys
      rw [listLast_cons_ne_nil y (z :: zs) (by simp)] at h
      exact List.mem_cons_of_mem y (ih x h)

theorem strNe_of_lastChar {a b : String} (h : listLast a.data ≠ listLast b.data) : a ≠ b := by
  intro he
  exact h (by rw [he])

theorem lexLeList_refl : ∀ xs : List Char, lexLeList xs xs = true := by
  intro xs
  induction xs with
  | nil => rfl
  | cons x xs ih => simp [lexLeList, ih]

theorem strLeP_refl (a : String) : strLeP a a := lexLeList_refl a.data

theorem sorted_listLast_max : ∀ (l : List String), l.Sorted strLeP →
    ∀ q ∈ l, ∀ L, listLast l = some L → strLeP q L := by
  intro l
  induction l with
  | nil => intro _ q hq; simp at hq
  | cons x xs ih =>
    intro hs q hq L hL
    rw [List.sorted_cons] at hs
    obtain ⟨hx, hxs⟩ := hs
    cases hxs' : xs with
    | nil =>
      subst hxs'
      simp [listLast] at hL
      rcases List.mem_singleton.mp hq with rfl
      rw [← hL]
      exact strLeP_refl q
    | cons y ys =>
      subst hxs'
      rw [listLast_cons_ne_nil x _ (by simp)] at hL
      rcases List.mem_cons.mp hq with rfl | hq'
      · exact hx L (listLast_mem _ _ hL)
      · exact ih hxs q hq' L hL

theorem lookup_erase_self (p : String) : ∀ s : Store, lookupStore p (eraseStore p s) = none := by
  intro s
  induction s with
  | nil => rfl
  | cons kv rest ih =>
    obtain ⟨k, c⟩ := kv
    by_cases h : k = p
    · simpa [eraseStore, List.filter_cons, h] using ih
    · simpa [eraseStore, List.filter_cons, h, lookupStore, Ne.symm h] using ih

theorem lookup_erase_ne {q p : String} (h : q ≠ p) :
    ∀ s : Store, lookupStore q (eraseStore p s) = lookupStore q s := by
  intro s
  induction s with
  | nil => rfl
  | cons kv rest ih =>
    obtain ⟨k, c⟩ := kv
    by_cases hk : k = p
    · subst hk
      simpa [eraseStore, List.filter_cons, lookupStore, h] using ih
    · by_cases hq : q = k
      · subst hq
        simp [eraseStore, List.filter_cons, hk, lookupStore]
      · simpa [eraseStore, List.filter_cons, hk, lookupStore, hq] using ih

theorem lookup_insert_self (p c : String) (s : Store) :
    lookupStore p (insertStore p c s) = some c := by
  simp [insertStore, lookupStore]

theorem lookup_insert_ne {q p : String} (h : q ≠ p) (c : String) (s : Store) :
    lookupStore q (insertStore p c s) = lookupStore q s := by
  simp [insertStore, lookupStore, h, lookup_erase_ne h]

theorem digitChar_isDigit {d : Nat} (h : d < 10) : (digitChar d).isDigit = true := by
  interval_cases d <;> decide

theorem digitChar_toNat {d : Nat} (h : d < 10) : (digitChar d).toNat = 48 + d := by
  interval_cases d <;> decide

theorem natDigitsAux_ne_nil (n fuel : Nat) : natDigitsAux n (fuel + 1) ≠ [] := by
  rw [natDigitsAux]
  split <;> simp

theorem natDigits_ne_nil (n : Nat) : natDigits n ≠ [] := natDigitsAux_ne_nil n n

theorem natDigitsAux_all_digit : ∀ fuel n, ∀ c ∈ natDigitsAux n fuel, c.isDigit = true := by
  intro fuel
  induction fuel with
  | zero => intro n c hc; simp [natDigitsAux] at hc
  | succ fuel ih =>
    intro n c hc
    rw [natDigitsAux] at hc
    split at hc
    · rename_i h10
      simp at hc
      subst hc
      exact digitChar_isDigit h10
    · rcases List.mem_append.mp hc with hmem | hmem
      · exact ih _ c hmem
      · simp at hmem
        subst hmem
        exact digitChar_isDigit (Nat.mod_lt _ (by norm_num))

theorem foldDigits_append_singleton (ds : List Char) (c : Char) :
    foldDigits (ds ++ [c]) = foldDigits ds * 10 + (c.toNat - 48) := by
  simp [foldDigits, List.foldl_append]

theorem natDigitsAux_fold : ∀ fuel n, n < fuel → foldDigits (natDigitsAux n fuel) = n := by
  intro fuel
  induction fuel with
  | zero => intro n h; omega
  | succ fuel ih =>
    intro n h
    rw [natDigitsAux]
    split
    · rename_i h10
      simp [foldDigits]
      rw [digitChar_toNat h10]
      omega
    · rename_i h10
      push_neg at h10
      rw [foldDigits_append_singleton]
      have hdiv : n / 10 < fuel := by
        have := Nat.div_lt_self (by omega : 0 < n) (by norm_num : 1 < 10)
        omega
      rw [ih _ hdiv, digitChar_toNat (Nat.mod_lt _ (by norm_num))]
      omega

theorem natDigits_fold (n : Nat) : foldDigits (natDigits n) = n :=
  natDigitsAux_fold (n + 1) n (Nat.lt_succ_self n)

theorem natDigits_head_digit {n : Nat} {c : Char} {cs : List Char}
    (h : natDigits n = c :: cs) : c.isDigit = true := by
  apply natDigitsAux_all_digit (n + 1) n c
  rw [← natDigits, h]
  exact List.mem_cons_self c cs

theorem parseI32_intRepr {v w : Int} (h : parseI32 (intRepr v) = some w) : w = v := by
  by_cases hv : v < 0
  · rw [intRepr, if_pos hv] at h
    cases hnd : natDigits v.natAbs with
    | nil => exact absurd hnd (natDigits_ne_nil _)
    | cons c cs =>
      have hall : (c :: cs).all (fun d => d.isDigit) = true := by
        rw [← hnd]
        exact List.all_eq_true.mpr (fun d hd => natDigitsAux_all_digit _ _ d hd)
      have hfold : foldDigits (c :: cs) = v.natAbs := by
        rw [← hnd]; exact natDigits_fold _
      rw [hnd] at h
      simp only [parseI32, List.isEmpty_cons, hall] at h
      norm_num at h
      rw [hfold] at h
      obtain ⟨-, -, hw⟩ := h
      omega
  · rw [intRepr, if_neg hv] at h
    cases hnd : natDigits v.toNat with
    | nil => exact absurd hnd (natDigits_ne_nil _)
    | cons c cs =>
      have hcd : c.isDigit = true := natDigits_head_digit hnd
      have hcm : (c == '-') = false := by
        apply beq_eq_false_iff_ne.mpr
        intro hc
        rw [hc] at hcd
        exact absurd hcd (by decide)
      have hcp : (c == '+') = false := by
        apply beq_eq_false_iff_ne.mpr
        intro hc
        rw [hc] at hcd
        exact absurd hcd (by decide)
      have hall : (c :: cs).all (fun d => d.isDigit) = true := by
        rw [← hnd]
        exact List.all_eq_true.mpr (fun d hd => natDigitsAux_all_digit _ _ d hd)
      have hfold : foldDigits (c :: cs) = v.toNat := by
        rw [← hnd]; exact natDigits_fold _
      rw [hnd] at h
      simp only [parseI32, List.isEmpty_cons, hall, hcm, hcp] at h
      norm_num at h
      rw [hfold] at h
      obtain ⟨-, -, hw⟩ := h
      omega


theorem loadFrom_eq_read_err {σ : Type} (b : Backend σ) (t : TableState) (vh : Int)
    (path : String) (s : σ) {e0 : Err} (hr : b.read path s = .error e0) :
    Table.loadFrom b t vh path s = (.error e0, t) := by
  simp [Table.loadFrom, Table.read_table_metadata, hr]

theorem loadFrom_eq_parse_err {σ : Type} (b : Backend σ) (t : TableState) (vh : Int)
    (path : String) (s : σ) {c : String} {e0 : Err}
    (hr : b.read path s = .ok c) (hp : b.parse_table_metadata c = .error e0) :
    Table.loadFrom b t vh path s = (.error e0, t) := by
  simp [Table.loadFrom, Table.read_table_metadata, hr, hp]

theorem loadFrom_eq_ts_zero {σ : Type} (b : Backend σ) (t : TableState) (vh : Int)
    (path : String) (s : σ) {c : String} {md : TableMetadata}
    (hr : b.read path s = .ok c) (hp : b.parse_table_metadata c = .ok md)
    (hz : md.last_updated_ms = 0) :
    Table.loadFrom b t vh path s =
      (.error ⟨.IcebergDataInvalid, "Timestamp when the table was last updated is invalid"⟩, t) := by
  simp [Table.loadFrom, Table.read_table_metadata, hr, hp, hz]

theorem loadFrom_eq_ok {σ : Type} (b : Backend σ) (t : TableState) (vh : Int)
    (path : String) (s : σ) {c : String} {md : TableMetadata}
    (hr : b.read path s = .ok c) (hp : b.parse_table_metadata c = .ok md)
    (hz : md.last_updated_ms ≠ 0) :
    Table.loadFrom b t vh path s =
      (.ok (), { t with
        current_version := md.last_updated_ms
        current_location := some md.location
        table_metadata := insertAssoc md.last_updated_ms md t.table_metadata
        current_table_version := vh }) := by
  simp [Table.loadFrom, Table.read_table_metadata, hr, hp, hz]

theorem loadFrom_err_state {σ : Type} (b : Backend σ) (t : TableState) (vh : Int)
    (path : String) (s : σ) (e : Err) (t' : TableState)
    (h : Table.loadFrom b t vh path s = (.error e, t')) : t' = t := by
  cases hr : b.read path s with
  | error e0 =>
    rw [loadFrom_eq_read_err b t vh path s hr] at h
    cases h
    rfl
  | ok c =>
    cases hp : b.parse_table_metadata c with
    | error e0 =>
      rw [loadFrom_eq_parse_err b t vh path s hr hp] at h
      cases h
      rfl
    | ok md =>
      by_cases hz : md.last_updated_ms = 0
      · rw [loadFrom_eq_ts_zero b t vh path s hr hp hz] at h
        cases h
        rfl
      · rw [loadFrom_eq_ok b t vh path s hr hp hz] at h
        exact Except.noConfusion (congrArg Prod.fst h)

theorem loadFrom_ok_state {σ : Type} (b : Backend σ) (t : TableState) (vh : Int)
    (path : String) (s : σ) (u : Unit) (t' : TableState)
    (h : Table.loadFrom b t vh path s = (.ok u, t')) :
    ∃ c md, b.read path s = .ok c ∧ b.parse_table_metadata c = .ok md ∧
      md.last_updated_ms ≠ 0 ∧
      t' = { t with
        current_version := md.last_updated_ms
        current_location := some md.location
        table_metadata := insertAssoc md.last_updated_ms md t.table_metadata
        current_table_version := vh } := by
  cases hr : b.read path s with
  | error e0 =>
    rw [loadFrom_eq_read_err b t vh path s hr] at h
    exact Except.noConfusion (congrArg Prod.fst h)
  | ok c =>
    cases hp : b.parse_table_metadata c with
    | error e0 =>
      rw [loadFrom_eq_parse_err b t vh path s hr hp] at h
      exact Except.noConfusion (congrArg Prod.fst h)
    | ok md =>
      by_cases hz : md.last_updated_ms = 0
      · rw [loadFrom_eq_ts_zero b t vh path s hr hp hz] at h
        exact Except.noConfusion (congrArg Prod.fst h)
      · rw [loadFrom_eq_ok b t vh path s hr hp hz] at h
        exact ⟨c, md, rfl, hp, hz, (congrArg Prod.snd h).symm⟩

theorem load_err_state {σ : Type} (b : Backend σ) (t : TableState) (s : σ) (e : Err)
    (t' : TableState) (h : Table.load b t s = (.error e, t')) : t' = t := by
  unfold Table.load at h
  split at h
  · cases h; rfl
  · split at h
    · cases h; rfl
    · exact loadFrom_err_state _ _ _ _ _ _ _ h
  · split at h
    · cases h; rfl
    · split at h
      · cases h; rfl
      · split at h
        · cases h; rfl
        · exact loadFrom_err_state _ _ _ _ _ _ _ h

theorem load_ok_shape {σ : Type} (b : Backend σ) (t : TableState) (s : σ) (u : Unit)
    (t' : TableState) (h : Table.load b t s = (.ok u, t')) :
    ∃ vh path c md, b.read path s = .ok c ∧ b.parse_table_metadata c = .ok md ∧
      md.last_updated_ms ≠ 0 ∧
      t' = { t with
        current_version := md.last_updated_ms
        current_location := some md.location
        table_metadata := insertAssoc md.last_updated_ms md t.table_metadata
        current_table_version := vh } := by
  unfold Table.load at h
  split at h
  · simp at h
  · split at h
    · simp at h
    · obtain ⟨c, md, h1, h2, h3, h4⟩ := loadFrom_ok_state _ _ _ _ _ _ _ h
      exact ⟨_, _, c, md, h1, h2, h3, h4⟩
  · split at h
    · simp at h
    · split at h
      · simp at h
      · split at h
        · simp at h
        · obtain ⟨c, md, h1, h2, h3, h4⟩ := loadFrom_ok_state _ _ _ _ _ _ _ h
          exact ⟨_, _, c, md, h1, h2, h3, h4⟩

theorem walkManifests_ok {σ : Type} (b : Backend σ) (t : TableState) (s : σ)
    (F : ManifestListEntry → ManifestFile) :
    ∀ (entries : List ManifestListEntry) (acc : List DataFile),
      (∀ e ∈ entries, Table.resolveManifest b t s e = .ok (F e)) →
      Table.walkManifests b t s entries acc =
        .ok (acc ++ (entries.map (fun e => (F e).entries.map (fun v => v.data_file))).flatten) := by
  intro entries
  induction entries with
  | nil => intro acc _; simp [Table.walkManifests]
  | cons e rest ih =>
    intro acc h
    have he : Table.resolveManifest b t s e = .ok (F e) := h e (List.mem_cons_self e rest)
    simp only [Table.walkManifests, he]
    rw [ih _ (fun x hx => h x (List.mem_cons_of_mem e hx))]
    simp [List.append_assoc]

theorem walkManifests_err {σ : Type} (b : Backend σ) (t : TableState) (s : σ)
    (F : ManifestListEntry → ManifestFile) :
    ∀ (pre : List ManifestListEntry) (e : ManifestListEntry) (post : List ManifestListEntry)
      (err : Err) (acc : List DataFile),
      (∀ x ∈ pre, Table.resolveManifest b t s x = .ok (F x)) →
      Table.resolveManifest b t s e = .error err →
      Table.walkManifests b t s (pre ++ e :: post) acc = .error err := by
  intro pre
  induction pre with
  | nil =>
    intro e post err acc _ he
    simp [Table.walkManifests, he]
  | cons x xs ih =>
    intro e post err acc h he
    have hx : Table.resolveManifest b t s x = .ok (F x) := h x (List.mem_cons_self x xs)
    simp only [List.cons_append, Table.walkManifests, hx]
    exact ih e post err _ (fun y hy => h y (List.mem_cons_of_mem x hy)) he

theorem renameFile_fs (cr : Bool) (pTM : String → Except Err TableMetadata)
    (sTM : TableMetadata → Except Err String) (pML : String → Except Err ManifestList)
    (pMF : String → Except Err ManifestFile) (src dst : String) (stor : Store) (c : String)
    (hsrc : lookupStore src stor = some c) (hne : src ≠ dst) :
    ∃ s2, Table.renameFile (mkFsBackend cr pTM sTM pML pMF) src dst stor = (.ok (), s2) ∧
      lookupStore dst s2 = some c ∧
      ∀ q, q ≠ src → q ≠ dst → lookupStore q s2 = lookupStore q stor := by
  cases cr with
  | true =>
    refine ⟨insertStore dst c (eraseStore src stor), ?_, ?_, ?_⟩
    · simp [Table.renameFile, mkFsBackend, fsRename, hsrc]
    · exact lookup_insert_self dst c _
    · intro q hqs hqd
      rw [lookup_insert_ne hqd, lookup_erase_ne hqs]
  | false =>
    refine ⟨eraseStore src (insertStore dst c stor), ?_, ?_, ?_⟩
    · simp [Table.renameFile, mkFsBackend, fsCopy, fsDelete, hsrc]
    · rw [lookup_erase_ne (Ne.symm hne), lookup_insert_self]
    · intro q hqs hqd
      rw [lookup_erase_ne hqs, lookup_insert_ne hqd]

theorem lastChar_append_right (a b : String) {ch : Char} (h : listLast b.data = some ch) :
    listLast (a ++ b).data = some ch := by
  have hb : b.data ≠ [] := by
    intro hx
    rw [hx] at h
    simp [listLast] at h
  rw [String.data_append, listLast_append _ hb, h]

theorem lastChar_mfp (y : Int) : listLast (Table.metadata_file_path y).data = some 'n' := by
  rw [Table.metadata_file_path, Table.metadata_path]
  exact lastChar_append_right _ _ (lastChar_append_right _ _ (by decide))

theorem lastChar_tmpHint (x : String) :
    listLast (Table.metadata_path (x ++ "-version-hint.temp")).data = some 'p' := by
  rw [Table.metadata_path]
  exact lastChar_append_right _ _ (lastChar_append_right _ _ (by decide))

theorem mfp_ne_hint (y : Int) : Table.metadata_file_path y ≠ "metadata/version-hint.text" := by
  apply strNe_of_lastChar
  rw [lastChar_mfp]
  decide

theorem mfp_ne_tmpHint (y : Int) (x : String) :
    Table.metadata_file_path y ≠ Table.metadata_path (x ++ "-version-hint.temp") := by
  apply strNe_of_lastChar
  rw [lastChar_mfp, lastChar_tmpHint]
  decide

theorem tmpHint_ne_hint (x : String) :
    Table.metadata_path (x ++ "-version-hint.temp") ≠ "metadata/version-hint.text" := by
  apply strNe_of_lastChar
  rw [lastChar_tmpHint]
  decide

theorem write_hint_fs (cr : Bool) (pTM : String → Except Err TableMetadata)
    (sTM : TableMetadata → Except Err String) (pML : String → Except Err ManifestList)
    (pMF : String → Except Err ManifestFile) (tok2 : String) (nv : Int) (stor : Store) :
    ∃ s2, Table.write_metadata_version_hint (mkFsBackend cr pTM sTM pML pMF) tok2 nv stor =
        (.ok (), s2) ∧
      lookupStore "metadata/version-hint.text" s2 = some (intRepr nv) ∧
      ∀ q, q ≠ Table.metadata_path (tok2 ++ "-version-hint.temp") →
        q ≠ "metadata/version-hint.text" →
        lookupStore q s2 = lookupStore q stor := by
  have hfin : Table.metadata_path "version-hint.text" = "metadata/version-hint.text" := by decide
  have htne := tmpHint_ne_hint tok2
  have hsrc : lookupStore (Table.metadata_path (tok2 ++ "-version-hint.temp"))
      (eraseStore "metadata/version-hint.text"
        (insertStore (Table.metadata_path (tok2 ++ "-version-hint.temp")) (intRepr nv) stor)) =
      some (intRepr nv) := by
    rw [lookup_erase_ne htne, lookup_insert_self]
  obtain ⟨s2, hre, hdst, hpres⟩ :=
    renameFile_fs cr pTM sTM pML pMF (Table.metadata_path (tok2 ++ "-version-hint.temp"))
      "metadata/version-hint.text"
      (eraseStore "metadata/version-hint.text"
        (insertStore (Table.metadata_path (tok2 ++ "-version-hint.temp")) (intRepr nv) stor))
      (intRepr nv) hsrc htne
  refine ⟨s2, ?_, hdst, ?_⟩
  · simp only [Table.write_metadata_version_hint, mkFsBackend, fsWrite, fsDelete, hfin]
    rw [← hre]
    congr 1
  · intro q hq1 hq2
    rw [hpres q hq1 hq2, lookup_erase_ne hq2, lookup_insert_ne hq1]

theorem mkFs_is_exist (cr : Bool) (pTM : String → Except Err TableMetadata)
    (sTM : TableMetadata → Except Err String) (pML : String → Except Err ManifestList)
    (pMF : String → Except Err ManifestFile) :
    (mkFsBackend cr pTM sTM pML pMF).is_exist = fsExist := rfl

theorem mkFs_read (cr : Bool) (pTM : String → Except Err TableMetadata)
    (sTM : TableMetadata → Except Err String) (pML : String → Except Err ManifestList)
    (pMF : String → Except Err ManifestFile) :
    (mkFsBackend cr pTM sTM pML pMF).read = fsRead := rfl

theorem mkFs_write (cr : Bool) (pTM : String → Except Err TableMetadata)
    (sTM : TableMetadata → Except Err String) (pML : String → Except Err ManifestList)
    (pMF : String → Except Err ManifestFile) :
    (mkFsBackend cr pTM sTM pML pMF).write = fsWrite := rfl

theorem mkFs_list (cr : Bool) (pTM : String → Except Err TableMetadata)
    (sTM : TableMetadata → Except Err String) (pML : String → Except Err ManifestList)
    (pMF : String → Except Err ManifestFile) :
    (mkFsBackend cr pTM sTM pML pMF).list = fsList := rfl

theorem mkFs_serialize (cr : Bool) (pTM : String → Except Err TableMetadata)
    (sTM : TableMetadata → Except Err String) (pML : String → Except Err ManifestList)
    (pMF : String → Except Err ManifestFile) :
    (mkFsBackend cr pTM sTM pML pMF).serialize_table_meta = sTM := rfl

theorem mkFs_parseTM (cr : Bool) (pTM : String → Except Err TableMetadata)
    (sTM : TableMetadata → Except Err String) (pML : String → Except Err ManifestList)
    (pMF : String → Except Err ManifestFile) :
    (mkFsBackend cr pTM sTM pML pMF).parse_table_metadata = pTM := rfl

/-- C3: if any write, rename, copy or delete step of `commit` fails --
indeed, if `commit` fails anywhere, including during the final reload --
the in-memory table state (the version-to-metadata map,
`current_version`, `current_location`, `current_table_version`) is
exactly what it was before the call. -/
theorem c3_commit_failure_keeps_state {σ : Type} (b : Backend σ) (tok1 tok2 : String)
    (t : TableState) (m : TableMetadata) (s : σ) (e : Err) (t' : TableState) (s' : σ)
    (h : Table.commit b tok1 tok2 t m s = (.error e, t', s')) : t' = t := by
  simp only [Table.commit] at h
  split at h
  · cases h; rfl
  · split at h
    · cases h; rfl
    · split at h
      · cases h; rfl
      · split at h
        · cases h; rfl
        · split at h
          · rename_i t'' heq
            cases h
            exact load_err_state _ _ _ _ _ heq
          · exact Except.noConfusion (congrArg (fun p => p.1) h)

/-- C2: a successful `commit` on the concrete filesystem-store backend
bumps the in-memory file-sequence version from `p` to `p + 1`, leaves
the serialized metadata in storage at `metadata/v(p+1).metadata.json`
and the decimal `p + 1` in the pointer file
`metadata/version-hint.text`.  The hypothesis on `tok1` states that the
random temporary name does not collide with the canonical metadata file
name (guaranteed by the uuid format in the code). -/
theorem c2_commit_success (cr : Bool) (pTM : String → Except Err TableMetadata)
    (sTM : TableMetadata → Except Err String) (pML : String → Except Err ManifestList)
    (pMF : String → Except Err ManifestFile) (tok1 tok2 : String)
    (t t' : TableState) (m : TableMetadata) (s s' : Store)
    (htok : Table.metadata_path (tok1 ++ ".metadata.json") ≠
      Table.metadata_file_path (t.current_table_version + 1))
    (h : Table.commit (mkFsBackend cr pTM sTM pML pMF) tok1 tok2 t m s = (.ok (), t', s')) :
    t'.current_table_version = t.current_table_version + 1 ∧
    ∃ bytes, sTM m = .ok bytes ∧
      lookupStore (Table.metadata_file_path (t.current_table_version + 1)) s' = some bytes ∧
      lookupStore "metadata/version-hint.text" s' =
        some (intRepr (t.current_table_version + 1)) := by
  cases hser : sTM m with
  | error e0 =>
    simp only [Table.commit, mkFs_serialize, hser] at h
    exact Except.noConfusion (congrArg (fun p => p.1) h)
  | ok bytes =>
    simp only [Table.commit, mkFs_serialize, hser, mkFs_write, fsWrite] at h
    obtain ⟨s2, hre, hfinal2, hpres2⟩ :=
      renameFile_fs cr pTM sTM pML pMF (Table.metadata_path (tok1 ++ ".metadata.json"))
        (Table.metadata_file_path (t.current_table_version + 1))
        (insertStore (Table.metadata_path (tok1 ++ ".metadata.json")) bytes s)
        bytes (lookup_insert_self _ _ _) htok
    simp only [hre] at h
    obtain ⟨s5, hwh, hhint5, hpres5⟩ :=
      write_hint_fs cr pTM sTM pML pMF tok2 (t.current_table_version + 1) s2
    simp only [hwh] at h
    have hfinal5 : lookupStore (Table.metadata_file_path (t.current_table_version + 1)) s5 =
        some bytes := by
      rw [hpres5 _ (mfp_ne_tmpHint _ _) (mfp_ne_hint _), hfinal2]
    split at h
    · exact Except.noConfusion (congrArg (fun p => p.1) h)
    · rename_i u t'' heq
      have ht' : t' = t'' := (congrArg (fun p => p.2.1) h).symm
      have hs' : s' = s5 := (congrArg (fun p => p.2.2) h).symm
      have hex : Table.is_version_hint_exist (mkFsBackend cr pTM sTM pML pMF) s5 = .ok true := by
        simp [Table.is_version_hint_exist, mkFs_is_exist, fsExist, hhint5]
      cases hp : parseI32 (intRepr (t.current_table_version + 1)) with
      | none =>
        have hbad : Table.load (mkFsBackend cr pTM sTM pML pMF) t s5 =
            (.error ⟨.IcebergDataInvalid, "parse version hint failed"⟩, t) := by
          simp [Table.load, hex, Table.read_version_hint, mkFs_read, fsRead, hhint5, hp]
        rw [hbad] at heq
        exact Except.noConfusion (congrArg (fun p => p.1) heq)
      | some w =>
        have hw : w = t.current_table_version + 1 := parseI32_intRepr hp
        have hload : Table.load (mkFsBackend cr pTM sTM pML pMF) t s5 =
            Table.loadFrom (mkFsBackend cr pTM sTM pML pMF) t w
              ("metadata/v" ++ intRepr w ++ ".metadata.json") s5 := by
          simp [Table.load, hex, Table.read_version_hint, mkFs_read, fsRead, hhint5, hp]
        rw [hload] at heq
        obtain ⟨c, md, -, -, -, ht''⟩ := loadFrom_ok_state _ _ _ _ _ _ _ heq
        refine ⟨?_, bytes, rfl, ?_, ?_⟩
        · rw [ht', ht'', hw]
        · rw [hs']
          exact hfinal5
        · rw [hs']
          exact hhint5

/-- C1: for a loaded table whose current snapshot resolves, if every
manifest-list entry resolves to a manifest (assignment `F`),
`current_data_files` returns exactly the concatenation of the data
files of the manifests, in manifest-list order and per-manifest order
(so the count is the sum of the per-manifest counts); and if some entry
fails to read or parse while all entries before it succeed, the call
returns exactly that error, with no partial result. -/
theorem c1_current_data_files {σ : Type} (b : Backend σ) (t : TableState) (s : σ)
    (meta : TableMetadata) (snapId : Int) (snaps : List Snapshot) (snap : Snapshot)
    (mlPath mlContent : String) (ml : ManifestList)
    (hcv : t.current_version ≠ 0)
    (hmeta : lookupAssoc t.current_version t.table_metadata = some meta)
    (hsid : meta.current_snapshot_id = some snapId)
    (hsnaps : meta.snapshots = some snaps)
    (hfind : snaps.find? (fun v => v.snapshot_id == snapId) = some snap)
    (hrel : Table.rel_path t snap.manifest_list = .ok mlPath)
    (hread : b.read mlPath s = .ok mlContent)
    (hparse : b.parse_manifest_list mlContent = .ok ml) :
    (∀ F : ManifestListEntry → ManifestFile,
      (∀ e ∈ ml.entries, Table.resolveManifest b t s e = .ok (F e)) →
      Table.current_data_files b t s =
        some (.ok ((ml.entries.map (fun e => (F e).entries.map (fun v => v.data_file))).flatten)) ∧
      ((ml.entries.map (fun e => (F e).entries.map (fun v => v.data_file))).flatten).length =
        (ml.entries.map (fun e => (F e).entries.length)).sum) ∧
    (∀ (pre : List ManifestListEntry) (e : ManifestListEntry) (post : List ManifestListEntry)
      (err : Err) (F : ManifestListEntry → ManifestFile),
      ml.entries = pre ++ e :: post →
      (∀ x ∈ pre, Table.resolveManifest b t s x = .ok (F x)) →
      Table.resolveManifest b t s e = .error err →
      Table.current_data_files b t s = some (.error err)) := by
  have hcdf : Table.current_data_files b t s =
      some (Table.walkManifests b t s ml.entries []) := by
    simp [Table.current_data_files, hcv, hmeta, hsid, hsnaps, hfind, hrel, hread, hparse]
  constructor
  · intro F hF
    constructor
    · rw [hcdf, walkManifests_ok b t s F ml.entries [] hF]
      simp
    · simp [List.length_flatten, List.map_map, Function.comp_def, List.length_map]
  · intro pre e post err F hsplit hpre herr
    rw [hcdf, hsplit, walkManifests_err b t s F pre e post err [] hpre herr]

/-- C4: with no pointer file, `load` lists the metadata root, keeps
exactly the paths ending in `.metadata.json`, sorts them
lexicographically, and loads the last one (the lexicographic maximum)
as current; if there is none, it fails with DataInvalid. -/
theorem c4_load_without_hint {σ : Type} (b : Backend σ) (t : TableState) (s : σ)
    (ps : List String)
    (hex : b.is_exist "metadata/version-hint.text" s = .ok false)
    (hlist : b.list "metadata/" s = .ok ps) :
    (ps.filter (fun p => strEndsWith p ".metadata.json") = [] →
      Table.load b t s = (.error ⟨.IcebergDataInvalid, "no table metadata found"⟩, t)) ∧
    (∀ L, listLast (sortStrings (ps.filter (fun p => strEndsWith p ".metadata.json"))) = some L →
      (L ∈ ps.filter (fun p => strEndsWith p ".metadata.json") ∧
        ∀ q ∈ ps.filter (fun p => strEndsWith p ".metadata.json"), strLeP q L) ∧
      ∀ v c md, Table.extract_version L = .ok v →
        b.read L s = .ok c → b.parse_table_metadata c = .ok md → md.last_updated_ms ≠ 0 →
        Table.load b t s = (.ok (), { t with
          current_version := md.last_updated_ms
          current_location := some md.location
          table_metadata := insertAssoc md.last_updated_ms md t.table_metadata
          current_table_version := v })) := by
  have hvh : Table.is_version_hint_exist b s = .ok false := by
    simp [Table.is_version_hint_exist, hex]
  have hpaths : Table.list_table_metadata_paths b s =
      .ok (sortStrings (ps.filter (fun p => strEndsWith p ".metadata.json"))) := by
    simp [Table.list_table_metadata_paths, hlist]
  constructor
  · intro hempty
    simp [Table.load, hvh, hpaths, hempty, sortStrings, listLast]
  · intro L hL
    constructor
    · constructor
      · exact (List.mem_insertionSort strLeP).mp (listLast_mem _ _ hL)
      · intro q hq
        exact sorted_listLast_max (sortStrings _) (List.sorted_insertionSort strLeP _) q
          ((List.mem_insertionSort strLeP).mpr hq) L hL
    · intro v c md hv hrd hp hts
      have hload : Table.load b t s = Table.loadFrom b t v L s := by
        simp [Table.load, hvh, hpaths, hL, hv]
      rw [hload, loadFrom_eq_ok b t v L s hrd hp hts]

/-- C5 counterexample: the pointer file containing `-1` (a negative
decimal integer) is accepted: `read_version_hint` returns `-1` instead
of failing with DataInvalid as the claim states, because Rust's
`str::parse::<i32>` accepts an optional leading sign. -/
theorem c5_counterexample : Table.read_version_hint bW sC5 = .ok (-1) := by decide

/-- C5 amended: `read_version_hint` parses the entire pointer content
as a signed 32-bit decimal integer (optional leading sign); content
that does not parse (empty, non-numeric, out of the i32 range) fails
with DataInvalid, while any value `n` that parses -- including negative
ones -- is returned, and `load` then reads the metadata at
`metadata/v` followed by the decimal rendering of `n` and
`.metadata.json`. -/
theorem c5_amended {σ : Type} (b : Backend σ) (s : σ) (content : String)
    (hread : b.read "metadata/version-hint.text" s = .ok content) :
    (∀ n, parseI32 content = some n →
      Table.read_version_hint b s = .ok n ∧
      ∀ t, Table.is_version_hint_exist b s = .ok true →
        Table.load b t s =
          Table.loadFrom b t n ("metadata/v" ++ intRepr n ++ ".metadata.json") s) ∧
    (parseI32 content = none →
      Table.read_version_hint b s = .error ⟨.IcebergDataInvalid, "parse version hint failed"⟩) := by
  constructor
  · intro n hn
    constructor
    · simp [Table.read_version_hint, hread, hn]
    · intro t hex
      simp [Table.load, hex, Table.read_version_hint, hread, hn]
  · intro hn
    simp [Table.read_version_hint, hread, hn]

/-- C6: metadata whose parsed `last_updated_ms` is `0` makes `load`
fail with DataInvalid mentioning an invalid timestamp, and the
in-memory table state is returned unchanged. -/
theorem c6_zero_timestamp {σ : Type} (b : Backend σ) (t : TableState) (s : σ) (n : Int)
    (c : String) (md : TableMetadata)
    (hex : Table.is_version_hint_exist b s = .ok true)
    (hvh : Table.read_version_hint b s = .ok n)
    (hread : b.read ("metadata/v" ++ intRepr n ++ ".metadata.json") s = .ok c)
    (hparse : b.parse_table_metadata c = .ok md)
    (hz : md.last_updated_ms = 0) :
    Table.load b t s =
      (.error ⟨.IcebergDataInvalid, "Timestamp when the table was last updated is invalid"⟩, t) := by
  have hload : Table.load b t s =
      Table.loadFrom b t n ("metadata/v" ++ intRepr n ++ ".metadata.json") s := by
    simp [Table.load, hex, hvh]
  rw [hload, loadFrom_eq_ts_zero b t n _ s hread hparse hz]

/-- C7: when the table's `current_location` equals the prefix built
from the operator's reported scheme, name and root (with the trailing
slash of the path template), `rel_path` is a left inverse of
`absolution_path` on `metadata/v1.metadata.json`. -/
theorem c7_rel_path_absolution_path {σ : Type} (b : Backend σ) (t : TableState)
    (h : t.current_location = some (b.scheme ++ "://" ++ b.name ++ "/" ++ b.root ++ "/")) :
    Table.rel_path t (Table.absolution_path b "metadata/v1.metadata.json") =
      .ok "metadata/v1.metadata.json" := by
  have hdrop : dropLead (b.scheme ++ "://" ++ b.name ++ "/" ++ b.root ++ "/").data
      (Table.absolution_path b "metadata/v1.metadata.json").data =
      some ("metadata/v1.metadata.json" : String).data := by
    rw [Table.absolution_path, String.data_append]
    exact dropLead_append _ _
  simp only [Table.rel_path, h]
  rw [hdrop]

/-- C8: the version-to-metadata map is append-only: a successful `load`
inserts the loaded metadata at key `last_updated_ms` and preserves
every existing key, leaves `current_version` nonzero and bound in the
map, so `current_table_metadata` returns it without panicking; a
successful `commit` (whose state change is its final reload) likewise
preserves every key and leaves `current_table_metadata` panic-free. -/
theorem c8_append_only {σ : Type} (b : Backend σ) (t : TableState) (s : σ)
    (tok1 tok2 : String) (m : TableMetadata) :
    (∀ t', Table.load b t s = (.ok (), t') →
      (∀ k, (lookupAssoc k t.table_metadata).isSome →
        (lookupAssoc k t'.table_metadata).isSome) ∧
      t'.current_version ≠ 0 ∧
      ∃ md, t'.table_metadata = insertAssoc md.last_updated_ms md t.table_metadata ∧
        t'.current_version = md.last_updated_ms ∧
        Table.current_table_metadata t' = some md) ∧
    (∀ t' s', Table.commit b tok1 tok2 t m s = (.ok (), t', s') →
      (∀ k, (lookupAssoc k t.table_metadata).isSome →
        (lookupAssoc k t'.table_metadata).isSome) ∧
      Table.current_table_metadata t' ≠ none) := by
  have hload : ∀ (s0 : σ) (u : Unit) (t' : TableState), Table.load b t s0 = (.ok u, t') →
      (∀ k, (lookupAssoc k t.table_metadata).isSome →
        (lookupAssoc k t'.table_metadata).isSome) ∧
      t'.current_version ≠ 0 ∧
      ∃ md, t'.table_metadata = insertAssoc md.last_updated_ms md t.table_metadata ∧
        t'.current_version = md.last_updated_ms ∧
        Table.current_table_metadata t' = some md := by
    intro s0 u t' h
    obtain ⟨vh, path, c, md, hr, hp, hts, ht'⟩ := load_ok_shape b t s0 u t' h
    subst ht'
    refine ⟨?_, hts, md, rfl, rfl, ?_⟩
    · intro k hk
      by_cases hkk : k = md.last_updated_ms
      · subst hkk
        simp [insertAssoc, lookupAssoc]
      · simpa [insertAssoc, lookupAssoc, hkk] using hk
    · simp [Table.current_table_metadata, hts, insertAssoc, lookupAssoc]
  constructor
  · intro t' h
    exact hload s () t' h
  · intro t' s' h
    simp only [Table.commit] at h
    split at h
    · exact Except.noConfusion (congrArg (fun p => p.1) h)
    · split at h
      · exact Except.noConfusion (congrArg (fun p => p.1) h)
      · split at h
        · exact Except.noConfusion (congrArg (fun p => p.1) h)
        · split at h
          · exact Except.noConfusion (congrArg (fun p => p.1) h)
          · split at h
            · exact Except.noConfusion (congrArg (fun p => p.1) h)
            · rename_i u t'' heq
              have ht' : t' = t'' := congrArg (fun p => p.2.1) h.symm
              subst ht'
              obtain ⟨h1, h2, md, -, -, h5⟩ := hload _ u _ heq
              exact ⟨h1, by rw [h5]; exact Option.noConfusion⟩

/-- C9: `rel_path` on a table that has never been loaded
(`current_location` unset) returns a DataInvalid error saying the table
location is empty, for every path argument -- while
`current_table_metadata` and `current_data_files` hit their asserts
(modelled as `none`) on such a table. -/
theorem c9_rel_path_unloaded {σ : Type} (b : Backend σ) (s : σ) (p : String) :
    Table.rel_path Table.newState p =
      .error ⟨.IcebergDataInvalid, "table location is empty, maybe it's not loaded?"⟩ ∧
    Table.current_table_metadata Table.newState = none ∧
    Table.current_data_files b Table.newState s = none := by
  refine ⟨rfl, rfl, rfl⟩

/-- C10: in the no-pointer-file fallback, when the chosen
(lexicographically last) metadata filename does not match the version
pattern, `load` still reads and installs that same file's metadata as
current; only the recorded `current_table_version` falls back to `0`. -/
theorem c10_fallback_version_zero {σ : Type} (b : Backend σ) (t : TableState) (s : σ)
    (ps : List String) (L c : String) (md : TableMetadata)
    (hex : b.is_exist "metadata/version-hint.text" s = .ok false)
    (hlist : b.list "metadata/" s = .ok ps)
    (hL : listLast (sortStrings (ps.filter (fun p => strEndsWith p ".metadata.json"))) = some L)
    (hnm : matchVPattern L = none)
    (hread : b.read L s = .ok c)
    (hparse : b.parse_table_metadata c = .ok md)
    (hts : md.last_updated_ms ≠ 0) :
    Table.load b t s = (.ok (), { t with
      current_version := md.last_updated_ms
      current_location := some md.location
      table_metadata := insertAssoc md.last_updated_ms md t.table_metadata
      current_table_version := 0 }) := by
  have hvh : Table.is_version_hint_exist b s = .ok false := by
    simp [Table.is_version_hint_exist, hex]
  have hpaths : Table.list_table_metadata_paths b s =
      .ok (sortStrings (ps.filter (fun p => strEndsWith p ".metadata.json"))) := by
    simp [Table.list_table_metadata_paths, hlist]
  have hv : Table.extract_version L = .ok 0 := by
    simp [Table.extract_version, hnm]
  have hload : Table.load b t s = Table.loadFrom b t 0 L s := by
    simp [Table.load, hvh, hpaths, hL, hv]
  rw [hload, loadFrom_eq_ok b t 0 L s hread hparse hts]

/-- C1 witness: the fixture walk over two manifests yields the three
data files in order. -/
theorem c1_witness : Table.current_data_files bW tC1 sC1 = some (.ok [dfA, dfB, dfC]) := by
  have h := (c1_current_data_files bW tC1 sC1 mdW1 7 [snapW] snapW "metadata/snap.avro" "ML" mlW
    (by decide) (by decide) (by decide) (by decide) (by decide) (by decide) (by decide)
    (by decide)).1 FW (by decide)
  rw [h.1]
  decide

/-- C2 witness: the fixture commit on the copy-fallback backend
succeeds and the theorem's conclusions evaluate at it. -/
theorem c2_witness :
    Table.commit (mkFsBackend false pTMW sTMW pMLW pMFW) "uuid1" "uuid2" Table.newState mdW1 [] =
      (.ok (), commitResW.2.1, commitResW.2.2) ∧
    (commitResW.2.1.current_table_version = Table.newState.current_table_version + 1 ∧
      ∃ bytes, sTMW mdW1 = .ok bytes ∧
        lookupStore (Table.metadata_file_path (Table.newState.current_table_version + 1))
          commitResW.2.2 = some bytes ∧
        lookupStore "metadata/version-hint.text" commitResW.2.2 =
          some (intRepr (Table.newState.current_table_version + 1))) :=
  ⟨by decide, c2_commit_success false pTMW sTMW pMLW pMFW "uuid1" "uuid2" Table.newState
    commitResW.2.1 mdW1 [] commitResW.2.2 (by decide) (by decide)⟩

/-- C3 witness: a commit whose write step fails leaves the state of a
fresh table unchanged. -/
theorem c3_witness :
    Table.commit bFail "a" "b" Table.newState mdW1 () =
      (.error ⟨.Unexpected, "write failed"⟩, Table.newState, ()) ∧
    Table.newState = Table.newState :=
  ⟨by decide, c3_commit_failure_keeps_state bFail "a" "b" Table.newState mdW1 ()
    ⟨.Unexpected, "write failed"⟩ Table.newState () (by decide)⟩

/-- C4 witness: with no pointer file and `v1`/`v2` plus a non-metadata
object in storage, `load` installs `v2`'s metadata with file-sequence
version `2`. -/
theorem c4_witness :
    Table.load bW Table.newState sC4 = (.ok (), { Table.newState with
      current_version := mdW1.last_updated_ms
      current_location := some mdW1.location
      table_metadata := insertAssoc mdW1.last_updated_ms mdW1 Table.newState.table_metadata
      current_table_version := 2 }) :=
  ((c4_load_without_hint bW Table.newState sC4
      ["metadata/v1.metadata.json", "metadata/v2.metadata.json", "metadata/other.txt"]
      (by decide) (by decide)).2 "metadata/v2.metadata.json" (by decide)).2
    2 "MD1" mdW1 (by decide) (by decide) (by decide) (by decide)

/-- C5 witness for the amended claim: pointer content `7` parses and
`load` proceeds from `metadata/v7.metadata.json`. -/
theorem c5_witness :
    Table.read_version_hint bW sC5b = .ok 7 ∧
    Table.load bW Table.newState sC5b =
      Table.loadFrom bW Table.newState 7 ("metadata/v" ++ intRepr 7 ++ ".metadata.json") sC5b := by
  have h := (c5_amended bW sC5b "7" (by decide)).1 7 (by decide)
  exact ⟨h.1, h.2 Table.newState (by decide)⟩

/-- C6 witness: the fixture store whose metadata carries timestamp `0`
makes `load` fail with the invalid-timestamp error, state unchanged. -/
theorem c6_witness :
    Table.load bW Table.newState sC6 =
      (.error ⟨.IcebergDataInvalid, "Timestamp when the table was last updated is invalid"⟩,
        Table.newState) :=
  c6_zero_timestamp bW Table.newState sC6 1 "MD0" mdZeroW (by decide) (by decide) (by decide)
    (by decide) (by decide)

/-- C7 witness: the fixture operator and matching location recover the
relative metadata path. -/
theorem c7_witness :
    Table.rel_path tC7 (Table.absolution_path bW "metadata/v1.metadata.json") =
      .ok "metadata/v1.metadata.json" :=
  c7_rel_path_absolution_path bW tC7 (by decide)

/-- C8 witness: the fixture hint-directed load succeeds and its result
satisfies the append-only conclusions. -/
theorem c8_witness :
    Table.load bW Table.newState sC8 = (.ok (), T8W) ∧
    ((∀ k, (lookupAssoc k Table.newState.table_metadata).isSome →
        (lookupAssoc k T8W.table_metadata).isSome) ∧
      T8W.current_version ≠ 0 ∧
      ∃ md, T8W.table_metadata = insertAssoc md.last_updated_ms md Table.newState.table_metadata ∧
        T8W.current_version = md.last_updated_ms ∧
        Table.current_table_metadata T8W = some md) :=
  ⟨by decide, (c8_append_only bW Table.newState sC8 "x" "y" mdW1).1 T8W (by decide)⟩

/-- C10 witness: the non-matching filename `metadata/zzz.metadata.json`
is still loaded as current, with file-sequence version `0`. -/
theorem c10_witness :
    Table.load bW Table.newState sC10 = (.ok (), { Table.newState with
      current_version := mdW1.last_updated_ms
      current_location := some mdW1.location
      table_metadata := insertAssoc mdW1.last_updated_ms mdW1 Table.newState.table_metadata
      current_table_version := 0 }) :=
  c10_fallback_version_zero bW Table.newState sC10 ["metadata/zzz.metadata.json"]
    "metadata/zzz.metadata.json" "MD1" mdW1 (by decide) (by decide) (by decide) (by decide)
    (by decide) (by decide) (by decide)
